import Mathlib

set_option autoImplicit false

/-!
Verification of the session-wise multi-timepoint ridge-regression encoding
engine of the Drift_in_MEG_Encoding repository (`src/utils.py`).

The embedding covers, over the rationals:

* `MultiDimensionalRidge` — the inner class `GLMHelper.MultiDimensionalRidge`
  with its `fit` and `predict` methods.  The call `Ridge(alpha).fit(X, y)`
  delegates to scikit-learn; scikit-learn's ridge solver (intercept fitted,
  intercept not penalized) is embedded by its closed form: centre `X` and `y`,
  solve `(Xcᵀ Xc + α I) w = Xcᵀ yc` per output column, and set
  `b = ȳ - ⟨x̄, w⟩`.  The development proves that this closed form minimizes
  the penalized least-squares objective, which is the contract the source
  relies on.
* the pickle-based model store of `train_mapping` / `predict_from_mapping`,
  keyed by session (the ann-model / layer / subject path components are fixed
  within one `GLMHelper` instance and are dropped from the key),
* `train_mapping` — the per-session training loop,
* `predict_from_mapping` — the session × session evaluation loop producing the
  nested dictionary `{train_session: {pred_session: mse}}`, represented as an
  association list in insertion order,
* the distance aggregation of `VisualizationHelper.visualize_GLM_results`
  (`only_distance=True` branch).

Arrays are embedded as shape fields plus total entry functions (entries
outside the recorded shape are 0); Python exceptions become `Except` values.
NumPy's global random generator (`np.random.rand`) is embedded as an
explicitly threaded deterministic generator producing values in `[0, 1)`.
Session ids `"1"`..`"10"` (strings in the source, converted with `int()`
where arithmetic happens) are represented by their numeric values.
-/

/-- A 2-D array (`numpy` matrix) of rationals: a shape together with a total
entry function; entries outside the shape are irrelevant junk (0 for every
array built by the embedded code). -/
structure Mat where
  rows : ℕ
  cols : ℕ
  entry : ℕ → ℕ → ℚ

/-- A 3-D array `[n_samples, n_sensors, n_timepoints]` of rationals. -/
structure Tensor3 where
  n : ℕ
  S : ℕ
  T : ℕ
  entry : ℕ → ℕ → ℕ → ℚ

/-- The timepoint slice `Y[:, :, t]` (shape `[n, S]`). -/
def Tensor3.slice (Y : Tensor3) (t : ℕ) : Mat :=
  ⟨Y.n, Y.S, fun i s => Y.entry i s t⟩

/-- One fitted scikit-learn `Ridge` object: `coef_` of shape `[S, F]` and
`intercept_` of shape `[S]`. -/
structure RidgeModel where
  S : ℕ
  F : ℕ
  coef : ℕ → ℕ → ℚ
  intercept : ℕ → ℚ

/-- Placeholder model used to totalize list indexing (`models[t]` for an
out-of-range `t` never occurs in the source). -/
def defaultModel : RidgeModel :=
  ⟨0, 0, fun _ _ => 0, fun _ => 0⟩

/- ----------------------------------------------------------------
 The closed form of scikit-learn's `Ridge(alpha).fit` (dense, intercept).
---------------------------------------------------------------- -/

namespace RidgeCore

variable {n F : ℕ}

/-- Column means of `X` (scikit-learn's `X_offset`). -/
def xbar (X : Fin n → Fin F → ℚ) (f : Fin F) : ℚ := (∑ i, X i f) / n

/-- Mean of one output column (scikit-learn's `y_offset`). -/
def ybar (y : Fin n → ℚ) : ℚ := (∑ i, y i) / n

/-- Centred design matrix. -/
def Xc (X : Fin n → Fin F → ℚ) : Fin n → Fin F → ℚ := fun i f => X i f - xbar X f

/-- Centred output column. -/
def yc (y : Fin n → ℚ) : Fin n → ℚ := fun i => y i - ybar y

/-- The regularized Gram matrix `Xcᵀ Xc + α I`. -/
def gram (X : Fin n → Fin F → ℚ) (α : ℚ) : Matrix (Fin F) (Fin F) ℚ :=
  Matrix.of fun p q => (∑ i, Xc X i p * Xc X i q) + (if p = q then α else 0)

/-- Explicit inverse of the Gram matrix via the adjugate (computable). -/
def gramInv (X : Fin n → Fin F → ℚ) (α : ℚ) : Matrix (Fin F) (Fin F) ℚ :=
  (gram X α).det⁻¹ • (gram X α).adjugate

/-- Right-hand side of the normal equations, `Xcᵀ yc`. -/
def nrhs (X : Fin n → Fin F → ℚ) (y : Fin n → ℚ) : Fin F → ℚ :=
  fun f => ∑ i, Xc X i f * yc y i

/-- The ridge weight vector for one output column. -/
def wStar (X : Fin n → Fin F → ℚ) (y : Fin n → ℚ) (α : ℚ) : Fin F → ℚ :=
  (gramInv X α).mulVec (nrhs X y)

/-- The fitted intercept for one output column. -/
def bStar (X : Fin n → Fin F → ℚ) (y : Fin n → ℚ) (α : ℚ) : ℚ :=
  ybar y - ∑ f, xbar X f * wStar X y α f

/-- The penalized least-squares objective
`Σᵢ (yᵢ - ⟨Xᵢ, w⟩ - b)² + α ‖w‖²` (intercept not penalized). -/
def obj (X : Fin n → Fin F → ℚ) (y : Fin n → ℚ) (α : ℚ)
    (w : Fin F → ℚ) (b : ℚ) : ℚ :=
  (∑ i, (y i - (∑ f, X i f * w f) - b) ^ 2) + α * ∑ f, (w f) ^ 2

end RidgeCore

/-- The view of an untyped array as a typed `[rows, cols]` matrix. -/
def Mat.toFun (X : Mat) : Fin X.rows → Fin X.cols → ℚ := fun i f => X.entry i f

/-- One output column `Yt[:, s]` of a 2-D array, with the sample count taken
from the paired design matrix `X` (equal by scikit-learn's validation). -/
def Mat.colFun (Yt : Mat) (nrows s : ℕ) : Fin nrows → ℚ := fun i => Yt.entry i s

/-- The call `Ridge(alpha).fit(X, Yt)` for a 2-D target `Yt` (shape `[n, S]`):
independent ridge solutions per output column, packaged as `coef_` of shape
`[S, F]` and `intercept_` of shape `[S]`. -/
def sklearnRidgeFit (α : ℚ) (X Yt : Mat) : RidgeModel where
  S := Yt.cols
  F := X.cols
  coef := fun s f =>
    if h : s < Yt.cols ∧ f < X.cols then
      RidgeCore.wStar X.toFun (Yt.colFun X.rows s) α ⟨f, h.2⟩
    else 0
  intercept := fun s =>
    if s < Yt.cols then RidgeCore.bStar X.toFun (Yt.colFun X.rows s) α else 0

/- ----------------------------------------------------------------
 NumPy's global random generator, threaded explicitly.
---------------------------------------------------------------- -/

/-- One step of the embedded pseudo-random generator (a 64-bit linear
congruential generator standing in for NumPy's global Mersenne Twister:
deterministic given the seed/state, which is all the development relies on). -/
def lcgNext (s : ℕ) : ℕ :=
  (6364136223846793005 * s + 1442695040888963407) % 18446744073709551616

/-- The uniform `[0, 1)` value exposed by one generator state
(`np.random.rand` semantics). -/
def lcgUnit (s : ℕ) : ℚ :=
  ((s % 18446744073709551616 : ℕ) : ℚ) / 18446744073709551616

/-- The `k`-th draw (0-based) of the generator started from `seed`. -/
def drawAt (seed k : ℕ) : ℚ := lcgUnit (lcgNext^[k + 1] seed)

/-- The model for one timepoint in random-baseline mode:
`coef_ = np.random.rand(S, F) - 0.5`, `intercept_ = np.random.rand(S) - 0.5`,
consuming draws `base .. base + S*F + S - 1` of the global stream
(row-major, coefficients first, exactly as the source executes). -/
def randomModel (seed S F base : ℕ) : RidgeModel where
  S := S
  F := F
  coef := fun s f =>
    if s < S ∧ f < F then drawAt seed (base + (s * F + f)) - 1 / 2 else 0
  intercept := fun s =>
    if s < S then drawAt seed (base + S * F + s) - 1 / 2 else 0

/-- Number of draws `fit` consumes in random mode. -/
def nRandDraws (S F T : ℕ) : ℕ := T * (S * F + S)

/- ----------------------------------------------------------------
 GLMHelper.MultiDimensionalRidge
---------------------------------------------------------------- -/

/-- The error raised by scikit-learn's input validation inside
`Ridge.fit` (a Python `ValueError`). -/
inductive FitError
  | invalidInput
deriving DecidableEq

/-- The failures of `MultiDimensionalRidge.predict`, named after the spec's
error taxonomy: `notFitted` is the `IndexError` raised by `self.models[0]`
on an empty (never-fitted) bank, `shapeMismatch` the `ValueError` raised by
scikit-learn's validation / NumPy's matmul when the input's feature
dimensionality does not match a model's `coef_`. -/
inductive PredictError
  | notFitted
  | shapeMismatch
deriving DecidableEq

/-- The state of `GLMHelper.MultiDimensionalRidge.__init__(alpha=0.5,
models=[], random_weights=False)`. -/
structure MultiDimensionalRidge where
  alpha : ℚ
  random_weights : Bool
  models : List RidgeModel

/-- The method `MultiDimensionalRidge.fit(X, Y)`.

Source: read `n_features = X.shape[1]`, `n_sensors = Y.shape[1]`,
`n_timepoints = Y.shape[2]`, replace `self.models` by `n_timepoints` fresh
models; in random mode assign weights from the global random stream, else fit
each model on `(X, Y[:, :, t])`.  The scikit-learn call validates its input
(`X` and `y` must share a positive sample count, with at least one feature
and one output); with zero timepoints the loop body never runs and the bank
ends up empty without any validation.  The global random state is threaded
explicitly (`rng` in, updated state out); the non-random branch does not touch
it. -/
def MultiDimensionalRidge.fit (self : MultiDimensionalRidge) (X : Mat) (Y : Tensor3)
    (rng : ℕ) : Except FitError (MultiDimensionalRidge × ℕ) :=
  if self.random_weights then
    .ok ({ self with
           models := List.ofFn fun t : Fin Y.T =>
             randomModel rng Y.S X.cols (t.val * (Y.S * X.cols + Y.S)) },
         lcgNext^[nRandDraws Y.S X.cols Y.T] rng)
  else if Y.T = 0 ∨ (X.rows = Y.n ∧ 0 < X.rows ∧ 0 < X.cols ∧ 0 < Y.S) then
    .ok ({ self with
           models := List.ofFn fun t : Fin Y.T =>
             sklearnRidgeFit self.alpha X (Y.slice t) },
         rng)
  else .error .invalidInput

/-- The method `MultiDimensionalRidge.predict(X)`.

Source: `n_sensors = self.models[0].coef_.shape[0]` (raises on an empty
bank), then for each timepoint `predictions[:, :, t]` is
`X @ coef_.T + intercept_` in random mode and `model.predict(X)` otherwise —
the same affine map, written with the model's own feature count by
scikit-learn.  Both branches require the input's column count to equal each
model's `coef_` width, and the slice assignment requires each model's sensor
count to equal `n_sensors` (every bank this system builds has identical
shapes across models). -/
def MultiDimensionalRidge.predict (self : MultiDimensionalRidge) (X : Mat) :
    Except PredictError Tensor3 :=
  match self.models with
  | [] => .error .notFitted
  | m0 :: _ =>
    if ∀ m ∈ self.models, m.F = X.cols ∧ m.S = m0.S then
      .ok { n := X.rows, S := m0.S, T := self.models.length,
            entry := fun i s t =>
              let m := self.models.getD t defaultModel
              if self.random_weights then
                (∑ f ∈ Finset.range X.cols, X.entry i f * m.coef s f) + m.intercept s
              else
                (∑ f ∈ Finset.range m.F, X.entry i f * m.coef s f) + m.intercept s }
    else .error .shapeMismatch

/- ----------------------------------------------------------------
 The session model store (pickle files under
 data_files/GLM_models/<ann_model>/<module>/subject_<id>/session_<s>).
---------------------------------------------------------------- -/

/-- The filesystem seen as a map from session key to pickled model list.
The ann-model, layer and subject path components are fixed for one
`GLMHelper` instance, so the key is the session id. -/
def Store : Type := ℕ → Option (List RidgeModel)

/-- The write `pickle.dump(ridge_model.models, file)` at the session's path
(silently overwrites). -/
def saveModels (st : Store) (k : ℕ) (ms : List RidgeModel) : Store :=
  fun k' => if k' = k then some ms else st k'

/-- The read `pickle.load(file)` at the session's path (`none` models a
`FileNotFoundError`). -/
def loadModels (st : Store) (k : ℕ) : Option (List RidgeModel) := st k

/- ----------------------------------------------------------------
 GLMHelper.train_mapping / predict_from_mapping
---------------------------------------------------------------- -/

/-- The list `BasicOperationsHelper.session_ids_num`, that is
`[str(i) for i in range(1, 11)]`,
represented numerically. -/
def session_ids_num : List ℕ := [1, 2, 3, 4, 5, 6, 7, 8, 9, 10]

/-- The per-session train and held-out test data the loader collaborators
(`load_split_data_from_file`) return: ANN features and MEG tensors. -/
structure SessionData where
  feat_train : Mat
  feat_test : Mat
  meg_train : Tensor3
  meg_test : Tensor3

/-- The session loop of `train_mapping`: for each session, fit a fresh
`MultiDimensionalRidge(alpha=0.5)` on the train split and pickle its models.
There is no exception handling: a failing fit propagates and the remaining
sessions are never processed. -/
def trainFold (data : ℕ → SessionData) : List ℕ → Store → Except FitError Store
  | [], st => .ok st
  | s :: rest, st =>
    match (MultiDimensionalRidge.mk (1 / 2) false []).fit
        (data s).feat_train (data s).meg_train 0 with
    | .error e => .error e
    | .ok (bank, _) => trainFold data rest (saveModels st s bank.models)

/-- The method `GLMHelper.train_mapping` over the fixed session list. -/
def train_mapping (data : ℕ → SessionData) (st : Store) : Except FitError Store :=
  trainFold data session_ids_num st

/-- The failures of `predict_from_mapping`: a missing pickle file
(`FileNotFoundError`), a failing `predict`, or scikit-learn's
`mean_squared_error` validation (empty or inconsistently sized flat arrays). -/
inductive EvalError
  | notFound
  | predictFailed (e : PredictError)
  | mseInvalid
deriving DecidableEq

/-- Row-major flattening order of a 3-D array (`reshape(-1)`): sample index
outer, sensor next, timepoint innermost. -/
def tripleList (n S T : ℕ) : List (ℕ × ℕ × ℕ) :=
  (List.range n).flatMap fun i =>
    (List.range S).flatMap fun s => (List.range T).map fun t => (i, s, t)

/-- The flattening `A.reshape(-1)` of a 3-D array. -/
def Tensor3.flatten (A : Tensor3) : List ℚ :=
  (tripleList A.n A.S A.T).map fun p => A.entry p.1 p.2.1 p.2.2

/-- The score `sklearn.metrics.mean_squared_error(a, b)` on two 1-D arrays:
the mean of
squared differences; validation rejects different lengths and empty input. -/
def mean_squared_error (a b : List ℚ) : Option ℚ :=
  if a.length = b.length ∧ a.length ≠ 0 then
    some ((List.zipWith (fun x y => (x - y) ^ 2) a b).sum / a.length)
  else none

/-- The inner loop of `predict_from_mapping`: for the bank loaded for one
training session, predict every session's held-out test features and score
with the flattened mean squared error, building
`{"session_pred": {pred_session: mse}}` in iteration order.  Any failure
propagates immediately. -/
def evalRow (ms : List RidgeModel) (data : ℕ → SessionData) :
    List ℕ → Except EvalError (List (ℕ × ℚ))
  | [] => .ok []
  | j :: rest =>
    match (MultiDimensionalRidge.mk (1 / 2) false ms).predict (data j).feat_test with
    | .error e => .error (.predictFailed e)
    | .ok preds =>
      match mean_squared_error ((data j).meg_test.flatten) preds.flatten with
      | none => .error .mseInvalid
      | some mse =>
        match evalRow ms data rest with
        | .error e => .error e
        | .ok row => .ok ((j, mse) :: row)

/-- The outer loop of `predict_from_mapping`: for every training session,
unpickle its models (aborting on a missing file) and build its row. -/
def evalAll (st : Store) (data : ℕ → SessionData) :
    List ℕ → Except EvalError (List (ℕ × List (ℕ × ℚ)))
  | [] => .ok []
  | s :: rest =>
    match loadModels st s with
    | none => .error .notFound
    | some ms =>
      match evalRow ms data session_ids_num with
      | .error e => .error e
      | .ok row =>
        match evalAll st data rest with
        | .error e => .error e
        | .ok rest' => .ok ((s, row) :: rest')

/-- The method `GLMHelper.predict_from_mapping`: the content of the
`"session_mapping"` dictionary it stores, as an association list in
insertion order. -/
def predict_from_mapping (st : Store) (data : ℕ → SessionData) :
    Except EvalError (List (ℕ × List (ℕ × ℚ))) :=
  evalAll st data session_ids_num

/- ----------------------------------------------------------------
 VisualizationHelper.visualize_GLM_results(only_distance=True):
 the distance aggregation.
---------------------------------------------------------------- -/

/-- The cells of the nested loss dictionary in iteration order:
`(train_session, pred_session, mse)`. -/
def cellsOf (M : List (ℕ × List (ℕ × ℚ))) : List (ℕ × ℕ × ℚ) :=
  M.flatMap fun r => r.2.map fun c => (r.1, c.1, c.2)

/-- One accumulation step of the `losses_by_distances` dictionary: skip the
diagonal, otherwise add the loss (and bump the count) at key
`abs(int(train_session) - int(pred_session))`. -/
def distStep (st : ℕ → Option (ℚ × ℕ)) (c : ℕ × ℕ × ℚ) : ℕ → Option (ℚ × ℕ) :=
  if c.1 ≠ c.2.1 then
    let d := ((c.1 : ℤ) - (c.2.1 : ℤ)).natAbs
    fun d' =>
      if d' = d then
        match st d with
        | none => some (c.2.2, 1)
        | some (l, k) => some (l + c.2.2, k + 1)
      else st d'
  else st

/-- The `losses_by_distances` dictionary after the double loop over the loss
dictionary (`none` = key absent). -/
def losses_by_distances (M : List (ℕ × List (ℕ × ℚ))) : ℕ → Option (ℚ × ℕ) :=
  (cellsOf M).foldl distStep fun _ => none

/-- The average `avg_losses[distance] = loss / num_losses` (the source indexes the
dictionary directly for `distance in range(1, 10)`; an absent key would raise
`KeyError` and is totalized to 0 here, outside the code's behaviour). -/
def avg_losses (M : List (ℕ × List (ℕ × ℚ))) (d : ℕ) : ℚ :=
  match losses_by_distances M d with
  | some (l, k) => l / k
  | none => 0

/-- The count `num_datapoints[distance]`. -/
def num_datapoints (M : List (ℕ × List (ℕ × ℚ))) (d : ℕ) : ℕ :=
  match losses_by_distances M d with
  | some (_, k) => k
  | none => 0

/-- The loss dictionary in the exact shape `predict_from_mapping` stores:
one row per training session, one cell per ordered session pair. -/
def canonMatrix (E : ℕ → ℕ → ℚ) : List (ℕ × List (ℕ × ℚ)) :=
  session_ids_num.map fun ts => (ts, session_ids_num.map fun es => (es, E ts es))

/-- The ordered session pairs `(i, j)` with `i ≠ j` and `|i - j| = d`. -/
def pairsAtDist (d : ℕ) : List (ℕ × ℕ) :=
  ((session_ids_num.flatMap fun i => session_ids_num.map fun j => (i, j)).filter
    fun p => p.1 ≠ p.2 ∧ ((p.1 : ℤ) - (p.2 : ℤ)).natAbs = d)

/- ----------------------------------------------------------------
 Concrete environments used by witnesses.
---------------------------------------------------------------- -/

/-- A 1×1 feature matrix. -/
def tX : Mat := ⟨1, 1, fun _ _ => 0⟩

/-- A 1×1×1 sensor tensor. -/
def tY : Tensor3 := ⟨1, 1, 1, fun _ _ _ => 0⟩

/-- Minimal well-formed data for every session. -/
def wData : ℕ → SessionData := fun _ => ⟨tX, tX, tY, tY⟩

/-- A 1-sensor, 1-feature, all-zero ridge model. -/
def wModel : RidgeModel := ⟨1, 1, fun _ _ => 0, fun _ => 0⟩

/-- A store missing exactly session 1's pickle and holding a well-formed
bank for every other session. -/
def cStore : Store := fun s => if s = 1 then none else some [wModel]

/-- A store holding a well-formed bank for every session. -/
def gStore : Store := fun _ => some [wModel]

/-- The store produced by training on `wData` from an empty filesystem. -/
def wStoreT : Store :=
  (train_mapping wData fun _ => none).toOption.getD fun _ => none

/-- The error matrix produced by evaluating `gStore` on `wData`. -/
def wMatrix : List (ℕ × List (ℕ × ℚ)) :=
  (predict_from_mapping gStore wData).toOption.getD []

/-- The multi-output ridge objective of the spec, over the entries inside
the declared shapes: total squared residual of `Yt` (shape `[n, S]`) against
`X·Wᵀ + b` plus `α` times the squared Frobenius norm of `W` (the intercept is
not penalized). -/
def ridgeObjectiveM (X Yt : Mat) (α : ℚ) (W : ℕ → ℕ → ℚ) (b : ℕ → ℚ) : ℚ :=
  (∑ s ∈ Finset.range Yt.cols, ∑ i ∈ Finset.range X.rows,
      (Yt.entry i s - (∑ f ∈ Finset.range X.cols, X.entry i f * W s f) - b s) ^ 2)
  + α * ∑ s ∈ Finset.range Yt.cols, ∑ f ∈ Finset.range X.cols, (W s f) ^ 2

/-- The prediction tensor of the minimal witness bank on the minimal input. -/
def wPred : Tensor3 :=
  ((MultiDimensionalRidge.mk (1 / 2) false [wModel]).predict tX).toOption.getD
    ⟨0, 0, 0, fun _ _ _ => 0⟩

/-- Accumulating one distance bucket of `losses_by_distances` over a cell
list: the running `(loss, num_losses)` pair after each contributing cell
(proof-side description of the dictionary entry's evolution). -/
def addCells (o : Option (ℚ × ℕ)) : List (ℕ × ℕ × ℚ) → Option (ℚ × ℕ)
  | [] => o
  | c :: cs =>
    addCells
      (match o with
       | none => some (c.2.2, 1)
       | some (l, k) => some (l + c.2.2, k + 1)) cs

/- ----------------------------------------------------------------
 Helper lemmas.
---------------------------------------------------------------- -/

lemma getD_mem_of_lt (ms : List RidgeModel) (t : ℕ) (ht : t < ms.length) :
    ms.getD t defaultModel ∈ ms := by
  rw [List.getD_eq_getElem?_getD, List.getElem?_eq_getElem ht]
  exact List.getElem_mem ht

lemma getD_default_of_le (ms : List RidgeModel) (t : ℕ) (ht : ms.length ≤ t) :
    ms.getD t defaultModel = defaultModel := by
  rw [List.getD_eq_getElem?_getD, List.getElem?_eq_none ht]
  rfl

/-- The shape of every model a successful `fit` stores. -/
lemma fit_models_shape (B : MultiDimensionalRidge) (X : Mat) (Y : Tensor3)
    (rng rng' : ℕ) (B' : MultiDimensionalRidge)
    (hfit : B.fit X Y rng = .ok (B', rng')) :
    B'.models.length = Y.T ∧ ∀ m ∈ B'.models, m.F = X.cols ∧ m.S = Y.S := by
  unfold MultiDimensionalRidge.fit at hfit
  by_cases hr : B.random_weights
  · rw [if_pos hr] at hfit
    obtain ⟨rfl, -⟩ : B' = _ ∧ _ := by
      refine ⟨?_, trivial⟩
      exact (Prod.mk.injEq _ _ _ _ ▸ (Except.ok.injEq _ _ ▸ hfit)).1.symm
    constructor
    · simp
    · intro m hm
      have hm' : m ∈ List.ofFn fun t : Fin Y.T =>
          randomModel rng Y.S X.cols (t.val * (Y.S * X.cols + Y.S)) := hm
      obtain ⟨t, rfl⟩ := (List.mem_ofFn _ _).mp hm'
      exact ⟨rfl, rfl⟩
  · rw [if_neg hr] at hfit
    by_cases hv : Y.T = 0 ∨ (X.rows = Y.n ∧ 0 < X.rows ∧ 0 < X.cols ∧ 0 < Y.S)
    · rw [if_pos hv] at hfit
      obtain ⟨rfl, -⟩ : B' = _ ∧ _ := by
        refine ⟨?_, trivial⟩
        exact (Prod.mk.injEq _ _ _ _ ▸ (Except.ok.injEq _ _ ▸ hfit)).1.symm
      constructor
      · simp
      · intro m hm
        have hm' : m ∈ List.ofFn fun t : Fin Y.T =>
            sklearnRidgeFit B.alpha X (Y.slice t.val) := hm
        obtain ⟨t, rfl⟩ := (List.mem_ofFn _ _).mp hm'
        exact ⟨rfl, rfl⟩
    · rw [if_neg hv] at hfit
      exact absurd hfit (by simp)

/- ----------------------------------------------------------------
 C7 — predict on a never-fitted (empty) bank.
---------------------------------------------------------------- -/

/-- C7: for every bank on which `fit` has not been called (`models` is the
`__init__` default empty list), `predict` fails with the spec's
`NotFittedError` (the `IndexError` of `self.models[0]`), for any input and
any `alpha` / `random_weights` configuration. -/
theorem C7_predict_empty_bank_notFitted (alpha : ℚ) (rwFlag : Bool) (X : Mat) :
    (MultiDimensionalRidge.mk alpha rwFlag []).predict X =
      Except.error PredictError.notFitted := rfl

/- ----------------------------------------------------------------
 C5 — save/load round trip preserves predictions.
---------------------------------------------------------------- -/

/-- C5: pickling a bank's models under a session key and loading the same key
returns the identical model list, and the bank `predict_from_mapping`
reconstructs from it (`MultiDimensionalRidge(alpha=0.5, models=loaded)`)
produces exactly the pre-save bank's `predict` output on every input
(predictions depend only on the stored models). -/
theorem C5_save_load_roundtrip (st : Store) (k : ℕ) (B : MultiDimensionalRidge)
    (X : Mat) :
    loadModels (saveModels st k B.models) k = some B.models ∧
    (MultiDimensionalRidge.mk (1 / 2) false B.models).predict X = B.predict X := by
  refine ⟨by simp [loadModels, saveModels], ?_⟩
  unfold MultiDimensionalRidge.predict
  cases hms : B.models with
  | nil => rfl
  | cons m0 rest =>
    simp only
    by_cases hall : ∀ m ∈ m0 :: rest, m.F = X.cols ∧ m.S = m0.S
    · rw [if_pos hall, if_pos hall]
      refine congrArg _ ?_
      refine congrArg _ ?_
      funext i s t
      simp only [Bool.false_eq_true, if_false]
      cases hrw : B.random_weights with
      | false => simp
      | true =>
        simp only [if_true]
        by_cases ht : t < (m0 :: rest).length
        · have hm := hall _ (getD_mem_of_lt _ t ht)
          rw [hm.1]
        · rw [getD_default_of_le _ t (le_of_not_lt ht)]
          simp [defaultModel]
    · rw [if_neg hall, if_neg hall]

/- ----------------------------------------------------------------
 Training loop lemmas.
---------------------------------------------------------------- -/

/-- Sessions not in the processed list keep their store entry. -/
lemma trainFold_frame (data : ℕ → SessionData) (l : List ℕ) (s : ℕ) (hs : s ∉ l) :
    ∀ st st', trainFold data l st = .ok st' → st' s = st s := by
  induction l with
  | nil => intro st st' h; cases h; rfl
  | cons a rest ih =>
    intro st st' h
    unfold trainFold at h
    cases hfit : (MultiDimensionalRidge.mk (1 / 2) false []).fit
        (data a).feat_train (data a).meg_train 0 with
    | error e => rw [hfit] at h; cases h
    | ok p =>
      rw [hfit] at h
      have := ih (fun hmem => hs (List.mem_cons_of_mem a hmem)) _ _ h
      rw [this]
      unfold saveModels
      have hne : ¬ s = a := fun he => hs (by rw [he]; exact List.mem_cons_self a rest)
      rw [if_neg hne]

/-- Every processed session's store entry is the freshly fitted
`alpha = 0.5` bank. -/
lemma trainFold_mem (data : ℕ → SessionData) (l : List ℕ) (s : ℕ) (hs : s ∈ l) :
    ∀ st st', trainFold data l st = .ok st' →
      ∃ B rng', (MultiDimensionalRidge.mk (1 / 2) false []).fit
          (data s).feat_train (data s).meg_train 0 = .ok (B, rng')
        ∧ st' s = some B.models := by
  induction l with
  | nil => cases hs
  | cons a rest ih =>
    intro st st' h
    unfold trainFold at h
    cases hfit : (MultiDimensionalRidge.mk (1 / 2) false []).fit
        (data a).feat_train (data a).meg_train 0 with
    | error e => rw [hfit] at h; cases h
    | ok p =>
      rw [hfit] at h
      by_cases hrest : s ∈ rest
      · exact ih hrest _ _ h
      · have hsa : s = a := by
          rcases List.mem_cons.mp hs with h1 | h2
          · exact h1
          · exact absurd h2 hrest
        subst hsa
        refine ⟨p.1, p.2, hfit, ?_⟩
        rw [trainFold_frame data rest s hrest _ _ h]
        unfold saveModels
        rw [if_pos rfl]

/- ----------------------------------------------------------------
 C10 — alpha is hard-coded to 0.5 in train_mapping.
---------------------------------------------------------------- -/

/-- C10: `train_mapping` takes no regularization argument; for every session
it constructs `MultiDimensionalRidge(alpha=0.5)` (non-random, empty) and the
bank persisted for that session is exactly the result of fitting that
constant-`alpha` model on the session's training data. -/
theorem C10_train_mapping_alpha_half (data : ℕ → SessionData) (st0 st' : Store)
    (htrain : train_mapping data st0 = .ok st') :
    ∀ s ∈ session_ids_num, ∃ B rng',
      (MultiDimensionalRidge.mk (1 / 2) false []).fit
          (data s).feat_train (data s).meg_train 0 = .ok (B, rng')
      ∧ st' s = some B.models :=
  fun s hs => trainFold_mem data session_ids_num s hs st0 st' htrain

/-- Witness for C10: training on minimal well-formed data from an empty
store succeeds and persists the session-1 bank fit at `alpha = 0.5`. -/
theorem C10_train_mapping_alpha_half_witness :
    ∃ B rng',
      (MultiDimensionalRidge.mk (1 / 2) false []).fit
          (wData 1).feat_train (wData 1).meg_train 0 = .ok (B, rng')
      ∧ wStoreT 1 = some B.models :=
  C10_train_mapping_alpha_half wData (fun _ => none) wStoreT rfl 1 (by decide)

/- ----------------------------------------------------------------
 C6 — partial-failure policy (the code has none).
---------------------------------------------------------------- -/

/-- A completed evaluation implies every training session's pickle was
present: the evaluator has no per-pair error capture. -/
lemma evalAll_ok_store (st : Store) (data : ℕ → SessionData) (l : List ℕ)
    (M : List (ℕ × List (ℕ × ℚ))) (h : evalAll st data l = .ok M) :
    ∀ s ∈ l, ∃ ms, loadModels st s = some ms := by
  induction l generalizing M with
  | nil => intro s hs; cases hs
  | cons a rest ih =>
    intro s hs
    unfold evalAll at h
    split at h
    · cases h
    · rename_i ms hload
      split at h
      · cases h
      · rename_i row hrow
        split at h
        · cases h
        · rename_i rest' hrest
          rcases List.mem_cons.mp hs with h1 | h2
          · exact ⟨ms, h1 ▸ hload⟩
          · exact ih rest' hrest s h2

/-- C6 counterexample: with session 1's pickle missing but a well-formed bank
stored for session 2 (and all others) and well-formed data everywhere, the
evaluator produces no per-pair record at all — it aborts the whole batch with
the missing-model error instead of processing the remaining 81 pairs. -/
theorem C6_counterexample_evaluator_aborts :
    cStore 2 = some [wModel] ∧
    predict_from_mapping cStore wData = Except.error EvalError.notFound :=
  ⟨rfl, rfl⟩

/-- C6 (amended): neither loop captures per-unit failures.  A completed
`train_mapping` means every session's fit succeeded, and a completed
`predict_from_mapping` means every session's stored model was present; the
first failing unit aborts the whole batch and no per-session success/failure
record exists. -/
theorem C6_amended_batch_all_or_nothing (dataT : ℕ → SessionData)
    (stT0 stT' : Store) (stE : Store) (dataE : ℕ → SessionData)
    (M : List (ℕ × List (ℕ × ℚ)))
    (htrain : train_mapping dataT stT0 = .ok stT')
    (heval : predict_from_mapping stE dataE = .ok M) :
    (∀ s ∈ session_ids_num, ∃ B rng',
        (MultiDimensionalRidge.mk (1 / 2) false []).fit
          (dataT s).feat_train (dataT s).meg_train 0 = .ok (B, rng'))
    ∧ (∀ s ∈ session_ids_num, ∃ ms, loadModels stE s = some ms) := by
  constructor
  · intro s hs
    obtain ⟨B, rng', hfit, -⟩ := trainFold_mem dataT session_ids_num s hs stT0 stT' htrain
    exact ⟨B, rng', hfit⟩
  · exact evalAll_ok_store stE dataE session_ids_num M heval

/-- Witness for C6 (amended): a fully well-formed environment on which both
batches complete. -/
theorem C6_amended_batch_all_or_nothing_witness :
    (∀ s ∈ session_ids_num, ∃ B rng',
        (MultiDimensionalRidge.mk (1 / 2) false []).fit
          (wData s).feat_train (wData s).meg_train 0 = .ok (B, rng'))
    ∧ (∀ s ∈ session_ids_num, ∃ ms, loadModels gStore s = some ms) :=
  C6_amended_batch_all_or_nothing wData (fun _ => none) wStoreT gStore wData
    wMatrix rfl rfl

/- ----------------------------------------------------------------
 C9 — random-baseline mode.
---------------------------------------------------------------- -/

/-- Every value the embedded generator exposes lies in `[0, 1)`. -/
lemma lcgUnit_mem (s : ℕ) : lcgUnit s ∈ Set.Ico (0 : ℚ) 1 := by
  unfold lcgUnit
  constructor
  · positivity
  · rw [div_lt_one (by norm_num)]
    exact_mod_cast Nat.mod_lt _ (by norm_num)

lemma drawAt_shifted_mem (seed k : ℕ) :
    drawAt seed k - 1 / 2 ∈ Set.Ico (-(1 : ℚ) / 2) (1 / 2) := by
  have h := lcgUnit_mem (lcgNext^[k + 1] seed)
  unfold drawAt
  constructor
  · have := h.1
    linarith
  · have := h.2
    linarith

/-- C9: in random-baseline mode, `fit` is a deterministic function of the
generator state (seed) and the input shapes — two random-mode fits from equal
states on inputs of equal feature/sensor/timepoint dimensions produce
identical banks and identical final states — and every weight and intercept
is drawn from the fixed centred, bounded range `[-0.5, 0.5)`
(`np.random.rand(..) - 0.5`). -/
theorem C9_random_fit_reproducible_bounded (a1 a2 : ℚ)
    (ms1 ms2 : List RidgeModel) (X1 X2 : Mat) (Y1 Y2 : Tensor3) (r1 r2 : ℕ)
    (hseed : r1 = r2) (ha : a1 = a2) (hF : X1.cols = X2.cols)
    (hS : Y1.S = Y2.S) (hT : Y1.T = Y2.T) :
    (MultiDimensionalRidge.mk a1 true ms1).fit X1 Y1 r1
      = (MultiDimensionalRidge.mk a2 true ms2).fit X2 Y2 r2
    ∧ ∀ B r', (MultiDimensionalRidge.mk a1 true ms1).fit X1 Y1 r1 = .ok (B, r') →
        ∀ m ∈ B.models,
          (∀ s f, s < m.S → f < m.F →
              m.coef s f ∈ Set.Ico (-(1 : ℚ) / 2) (1 / 2))
          ∧ ∀ s, s < m.S → m.intercept s ∈ Set.Ico (-(1 : ℚ) / 2) (1 / 2) := by
  subst hseed ha
  have hL : (MultiDimensionalRidge.mk a1 true ms1).fit X1 Y1 r1 =
      .ok (MultiDimensionalRidge.mk a1 true (List.ofFn fun t : Fin Y1.T =>
             randomModel r1 Y1.S X1.cols (t.val * (Y1.S * X1.cols + Y1.S))),
           lcgNext^[nRandDraws Y1.S X1.cols Y1.T] r1) := rfl
  have hR : (MultiDimensionalRidge.mk a1 true ms2).fit X2 Y2 r1 =
      .ok (MultiDimensionalRidge.mk a1 true (List.ofFn fun t : Fin Y2.T =>
             randomModel r1 Y2.S X2.cols (t.val * (Y2.S * X2.cols + Y2.S))),
           lcgNext^[nRandDraws Y2.S X2.cols Y2.T] r1) := rfl
  constructor
  · rw [hL, hR, hF, hS, hT]
  · intro B r' hfit m hm
    rw [hL] at hfit
    cases hfit
    have hm' : m ∈ List.ofFn fun t : Fin Y1.T =>
        randomModel r1 Y1.S X1.cols (t.val * (Y1.S * X1.cols + Y1.S)) := hm
    obtain ⟨t, rfl⟩ := (List.mem_ofFn _ _).mp hm'
    constructor
    · intro s f hsS hfF
      have hs' : s < Y1.S := hsS
      have hf' : f < X1.cols := hfF
      show (if s < Y1.S ∧ f < X1.cols then _ else 0) ∈ _
      rw [if_pos ⟨hs', hf'⟩]
      exact drawAt_shifted_mem _ _
    · intro s hsS
      have hs' : s < Y1.S := hsS
      show (if s < Y1.S then _ else 0) ∈ _
      rw [if_pos hs']
      exact drawAt_shifted_mem _ _

/-- Witness for C9 at concrete shapes and seeds. -/
theorem C9_random_fit_reproducible_bounded_witness :
    (MultiDimensionalRidge.mk 0 true []).fit tX tY 7
      = (MultiDimensionalRidge.mk 0 true [wModel]).fit tX tY 7
    ∧ ∀ B r', (MultiDimensionalRidge.mk 0 true []).fit tX tY 7 = .ok (B, r') →
        ∀ m ∈ B.models,
          (∀ s f, s < m.S → f < m.F →
              m.coef s f ∈ Set.Ico (-(1 : ℚ) / 2) (1 / 2))
          ∧ ∀ s, s < m.S → m.intercept s ∈ Set.Ico (-(1 : ℚ) / 2) (1 / 2) :=
  C9_random_fit_reproducible_bounded 0 0 [] [wModel] tX tX tY tY 7 7
    rfl rfl rfl rfl rfl

/- ----------------------------------------------------------------
 C4 — predict shape invariant and per-timepoint affine formula.
---------------------------------------------------------------- -/

/-- C4: a bank fitted from `X : [n, F]` and `Y : [n, S, T]` (with at least
one timepoint) maps any `X' : [m, F]` to a `[m, S, T]` prediction tensor
whose timepoint-`t` slice is `X' · Wₜᵀ + bₜ` for the bank's `t`-th model. -/
theorem C4_predict_shape_formula (B : MultiDimensionalRidge) (X : Mat)
    (Y : Tensor3) (rng rng' : ℕ) (B' : MultiDimensionalRidge)
    (hfit : B.fit X Y rng = .ok (B', rng')) (hT : 0 < Y.T)
    (X' : Mat) (hcols : X'.cols = X.cols) :
    ∃ P : Tensor3, B'.predict X' = .ok P ∧
      P.n = X'.rows ∧ P.S = Y.S ∧ P.T = Y.T ∧
      ∀ i s t, t < Y.T →
        P.entry i s t =
          (∑ f ∈ Finset.range X.cols,
              X'.entry i f * (B'.models.getD t defaultModel).coef s f)
          + (B'.models.getD t defaultModel).intercept s := by
  obtain ⟨hlen, hshape⟩ := fit_models_shape B X Y rng rng' B' hfit
  unfold MultiDimensionalRidge.predict
  cases hms : B'.models with
  | nil => rw [hms] at hlen; simp at hlen; omega
  | cons m0 rest =>
    simp only
    have hall : ∀ m ∈ m0 :: rest, m.F = X'.cols ∧ m.S = m0.S := by
      intro m hm
      have h1 := hshape m (hms ▸ hm)
      have h0 := hshape m0 (hms ▸ List.mem_cons_self m0 rest)
      exact ⟨h1.1.trans hcols.symm, h1.2.trans h0.2.symm⟩
    rw [if_pos hall]
    refine ⟨_, rfl, rfl, ?_, ?_, ?_⟩
    · exact (hshape m0 (hms ▸ List.mem_cons_self m0 rest)).2
    · rw [← hms, hlen]
    · intro i s t ht
      have htl : t < (m0 :: rest).length := by rw [← hms, hlen]; exact ht
      have hmem : (m0 :: rest).getD t defaultModel ∈ m0 :: rest :=
        getD_mem_of_lt _ t htl
      have hmF : ((m0 :: rest).getD t defaultModel).F = X.cols :=
        (hshape _ (hms ▸ hmem)).1
      dsimp only
      cases hrw : B'.random_weights with
      | false => simp only [Bool.false_eq_true, if_false, hmF]
      | true => simp only [if_true, hcols]

/-- Witness for C4: fitting on 1×1 data and predicting a 1×1 input. -/
theorem C4_predict_shape_formula_witness :
    ∃ P : Tensor3,
      (MultiDimensionalRidge.mk (1 / 2) false
          (List.ofFn fun t : Fin tY.T =>
            sklearnRidgeFit (1 / 2) tX (tY.slice t.val))).predict tX = .ok P ∧
      P.n = tX.rows ∧ P.S = tY.S ∧ P.T = tY.T ∧
      ∀ i s t, t < tY.T →
        P.entry i s t =
          (∑ f ∈ Finset.range tX.cols,
              tX.entry i f *
                (((MultiDimensionalRidge.mk (1 / 2) false
                    (List.ofFn fun t : Fin tY.T =>
                      sklearnRidgeFit (1 / 2) tX (tY.slice t.val))).models.getD t
                    defaultModel).coef s f))
          + (((MultiDimensionalRidge.mk (1 / 2) false
               (List.ofFn fun t : Fin tY.T =>
                 sklearnRidgeFit (1 / 2) tX (tY.slice t.val))).models.getD t
               defaultModel).intercept s) :=
  C4_predict_shape_formula (MultiDimensionalRidge.mk (1 / 2) false []) tX tY 0 0
    _ rfl (by decide) tX rfl

/- ----------------------------------------------------------------
 C8 — predict rejects mismatched feature dimensionality.
---------------------------------------------------------------- -/

/-- C8: for a fitted bank with input dimensionality `F = X.cols` (at least
one timepoint) and any input whose column count differs from `F`, `predict`
fails with the spec's `ShapeMismatchError` (scikit-learn's / NumPy's
dimensionality `ValueError`); nothing is reshaped or broadcast. -/
theorem C8_predict_wrong_dim_shapeMismatch (B : MultiDimensionalRidge)
    (X : Mat) (Y : Tensor3) (rng rng' : ℕ) (B' : MultiDimensionalRidge)
    (hfit : B.fit X Y rng = .ok (B', rng')) (hT : 0 < Y.T)
    (X' : Mat) (hcols : X'.cols ≠ X.cols) :
    B'.predict X' = Except.error PredictError.shapeMismatch := by
  obtain ⟨hlen, hshape⟩ := fit_models_shape B X Y rng rng' B' hfit
  unfold MultiDimensionalRidge.predict
  cases hms : B'.models with
  | nil => rw [hms] at hlen; simp at hlen; omega
  | cons m0 rest =>
    simp only
    have hall : ¬ ∀ m ∈ m0 :: rest, m.F = X'.cols ∧ m.S = m0.S := by
      intro hco
      have h0F := (hco m0 (List.mem_cons_self m0 rest)).1
      have h1F := (hshape m0 (hms ▸ List.mem_cons_self m0 rest)).1
      exact hcols (h0F ▸ h1F)
    rw [if_neg hall]

/-- Witness for C8: a bank fitted on 1-feature data rejects a 2-column
input. -/
theorem C8_predict_wrong_dim_shapeMismatch_witness :
    (MultiDimensionalRidge.mk (1 / 2) false
        (List.ofFn fun t : Fin tY.T =>
          sklearnRidgeFit (1 / 2) tX (tY.slice t.val))).predict
      (Mat.mk 1 2 fun _ _ => 0) = Except.error PredictError.shapeMismatch :=
  C8_predict_wrong_dim_shapeMismatch (MultiDimensionalRidge.mk (1 / 2) false [])
    tX tY 0 0 _ rfl (by decide) (Mat.mk 1 2 fun _ _ => 0) (by decide)

/- ----------------------------------------------------------------
 C2 — the full session × session error matrix.
---------------------------------------------------------------- -/

lemma sum_map_range (k : ℕ) (g : ℕ → ℚ) :
    ((List.range k).map g).sum = ∑ j ∈ Finset.range k, g j := by
  induction k with
  | zero => rfl
  | succ k ih =>
    rw [List.range_succ, List.map_append, List.sum_append, Finset.sum_range_succ, ih]
    simp

lemma zipWith_map_same {α β γ : Type} (f : β → β → γ) (g h : α → β)
    (l : List α) :
    List.zipWith f (l.map g) (l.map h) = l.map fun x => f (g x) (h x) := by
  induction l with
  | nil => rfl
  | cons a t ih => simp [ih]

lemma sum_flatMap {α : Type} (l : List α) (f : α → List ℚ) :
    (l.flatMap f).sum = (l.map fun x => (f x).sum).sum := by
  induction l with
  | nil => rfl
  | cons a t ih => rw [List.flatMap_cons, List.sum_append, ih]; simp

lemma length_flatMap_sum {α β : Type} (l : List α) (f : α → List β) :
    (l.flatMap f).length = (l.map fun x => (f x).length).sum := by
  induction l with
  | nil => rfl
  | cons a t ih => rw [List.flatMap_cons, List.length_append, ih]; simp

lemma tripleList_length (n S T : ℕ) : (tripleList n S T).length = n * S * T := by
  unfold tripleList
  rw [length_flatMap_sum]
  have hinner : ∀ i : ℕ,
      (((List.range S).flatMap fun s => (List.range T).map fun t => (i, s, t)).length)
        = S * T := by
    intro i
    rw [length_flatMap_sum]
    have : ∀ s : ℕ, (((List.range T).map fun t => (i, s, t)).length) = T := by
      intro s; rw [List.length_map, List.length_range]
    calc ((List.range S).map fun s =>
            (((List.range T).map fun t => (i, s, t)).length)).sum
        = ((List.range S).map fun _ => T).sum := by
          refine congrArg List.sum ?_
          exact List.map_congr_left fun s _ => this s
      _ = S * T := by
          induction S with
          | zero => simp
          | succ S ihS =>
            rw [List.range_succ, List.map_append, List.sum_append, ihS]
            simp [Nat.succ_mul]
  calc ((List.range n).map fun i =>
          (((List.range S).flatMap fun s =>
            (List.range T).map fun t => (i, s, t)).length)).sum
      = ((List.range n).map fun _ => S * T).sum := by
        refine congrArg List.sum ?_
        exact List.map_congr_left fun i _ => hinner i
    _ = n * (S * T) := by
        induction n with
        | zero => simp
        | succ n ihn =>
          rw [List.range_succ, List.map_append, List.sum_append, ihn]
          simp [Nat.succ_mul]
    _ = n * S * T := by ring

lemma flatten_length (A : Tensor3) : A.flatten.length = A.n * A.S * A.T := by
  unfold Tensor3.flatten
  rw [List.length_map, tripleList_length]

lemma sum_map_tripleList (n S T : ℕ) (g : ℕ × ℕ × ℕ → ℚ) :
    ((tripleList n S T).map g).sum
      = ∑ i ∈ Finset.range n, ∑ s ∈ Finset.range S, ∑ t ∈ Finset.range T,
          g (i, s, t) := by
  unfold tripleList
  rw [List.map_flatMap, sum_flatMap, sum_map_range]
  refine Finset.sum_congr rfl fun i _ => ?_
  rw [List.map_flatMap, sum_flatMap, sum_map_range]
  refine Finset.sum_congr rfl fun s _ => ?_
  rw [List.map_map, sum_map_range]
  rfl

/-- The flattened mean squared error equals the triple sum over all samples,
sensors and timepoints divided by the total element count. -/
lemma mse_flat_eq_triple (Yt P : Tensor3)
    (hn : P.n = Yt.n) (hS : P.S = Yt.S) (hT : P.T = Yt.T)
    (hpos : 0 < Yt.n * Yt.S * Yt.T) :
    mean_squared_error Yt.flatten P.flatten =
      some ((∑ i ∈ Finset.range Yt.n, ∑ s ∈ Finset.range Yt.S,
              ∑ t ∈ Finset.range Yt.T, (Yt.entry i s t - P.entry i s t) ^ 2)
            / ((Yt.n * Yt.S * Yt.T : ℕ) : ℚ)) := by
  have hlen : P.flatten.length = Yt.flatten.length := by
    rw [flatten_length, flatten_length, hn, hS, hT]
  have hlY : Yt.flatten.length = Yt.n * Yt.S * Yt.T := flatten_length Yt
  unfold mean_squared_error
  rw [if_pos ⟨hlen.symm, by rw [hlY]; exact Nat.pos_iff_ne_zero.mp hpos⟩]
  refine congrArg some ?_
  have hPf : P.flatten = (tripleList Yt.n Yt.S Yt.T).map fun p =>
      P.entry p.1 p.2.1 p.2.2 := by
    unfold Tensor3.flatten
    rw [hn, hS, hT]
  have hYf : Yt.flatten = (tripleList Yt.n Yt.S Yt.T).map fun p =>
      Yt.entry p.1 p.2.1 p.2.2 := rfl
  rw [hYf, hPf, zipWith_map_same, List.length_map, tripleList_length,
    sum_map_tripleList]

/-- Success characterization of the inner evaluation loop. -/
lemma evalRow_ok (ms : List RidgeModel) (data : ℕ → SessionData) (l : List ℕ)
    (cell : ℕ → ℚ)
    (h : ∀ j ∈ l, ∃ preds,
        (MultiDimensionalRidge.mk (1 / 2) false ms).predict (data j).feat_test
          = .ok preds ∧
        mean_squared_error (data j).meg_test.flatten preds.flatten
          = some (cell j)) :
    evalRow ms data l = .ok (l.map fun j => (j, cell j)) := by
  induction l with
  | nil => rfl
  | cons j rest ih =>
    obtain ⟨preds, hp, hm⟩ := h j (List.mem_cons_self j rest)
    have ihr := ih fun j' hj' => h j' (List.mem_cons_of_mem _ hj')
    simp only [evalRow, hp, hm, ihr, List.map_cons]

/-- Success characterization of the outer evaluation loop. -/
lemma evalAll_ok (st : Store) (data : ℕ → SessionData) (l : List ℕ)
    (banks : ℕ → List RidgeModel) (rowOf : ℕ → List (ℕ × ℚ))
    (hload : ∀ s ∈ l, loadModels st s = some (banks s))
    (hrow : ∀ s ∈ l, evalRow (banks s) data session_ids_num = .ok (rowOf s)) :
    evalAll st data l = .ok (l.map fun s => (s, rowOf s)) := by
  induction l with
  | nil => rfl
  | cons a rest ih =>
    have ihr := ih (fun s hs => hload s (List.mem_cons_of_mem _ hs))
      (fun s hs => hrow s (List.mem_cons_of_mem _ hs))
    simp only [evalAll, hload a (List.mem_cons_self a rest),
      hrow a (List.mem_cons_self a rest), ihr, List.map_cons]

/-- C2: for every ordered pair `(train_session, eval_session)` — the diagonal
included — the evaluator loads the bank pickled for the training session,
predicts the evaluation session's held-out test features with
`MultiDimensionalRidge(alpha=0.5, models=loaded)`, scores with the mean
squared error of the fully flattened tensors (one flat comparison across all
samples, sensors and timepoints), and records the scalar under
`[train_session][pred_session]` of the nested result; the finished matrix has
exactly one row per training session and one cell per ordered pair, in
session order. -/
theorem C2_evaluator_full_matrix (st : Store) (data : ℕ → SessionData)
    (banks : ℕ → List RidgeModel) (pred : ℕ → ℕ → Tensor3)
    (hload : ∀ s ∈ session_ids_num, loadModels st s = some (banks s))
    (hpred : ∀ s ∈ session_ids_num, ∀ j ∈ session_ids_num,
        (MultiDimensionalRidge.mk (1 / 2) false (banks s)).predict
          (data j).feat_test = .ok (pred s j))
    (hdims : ∀ s ∈ session_ids_num, ∀ j ∈ session_ids_num,
        (pred s j).n = (data j).meg_test.n ∧ (pred s j).S = (data j).meg_test.S
        ∧ (pred s j).T = (data j).meg_test.T)
    (hpos : ∀ j ∈ session_ids_num,
        0 < (data j).meg_test.n * (data j).meg_test.S * (data j).meg_test.T) :
    predict_from_mapping st data = .ok (session_ids_num.map fun ts =>
      (ts, session_ids_num.map fun es =>
        (es, (∑ i ∈ Finset.range (data es).meg_test.n,
               ∑ s ∈ Finset.range (data es).meg_test.S,
               ∑ t ∈ Finset.range (data es).meg_test.T,
                 ((data es).meg_test.entry i s t - (pred ts es).entry i s t) ^ 2)
             / (((data es).meg_test.n * (data es).meg_test.S *
                  (data es).meg_test.T : ℕ) : ℚ)))) := by
  unfold predict_from_mapping
  refine evalAll_ok st data session_ids_num banks _ hload ?_
  intro s hs
  refine evalRow_ok (banks s) data session_ids_num _ ?_
  intro j hj
  refine ⟨pred s j, hpred s hs j hj, ?_⟩
  obtain ⟨h1, h2, h3⟩ := hdims s hs j hj
  exact mse_flat_eq_triple _ _ h1 h2 h3 (hpos j hj)

/-- Witness for C2 on the minimal well-formed ten-session environment. -/
theorem C2_evaluator_full_matrix_witness :
    predict_from_mapping gStore wData = .ok (session_ids_num.map fun ts =>
      (ts, session_ids_num.map fun es =>
        (es, (∑ i ∈ Finset.range (wData es).meg_test.n,
               ∑ s ∈ Finset.range (wData es).meg_test.S,
               ∑ t ∈ Finset.range (wData es).meg_test.T,
                 ((wData es).meg_test.entry i s t - wPred.entry i s t) ^ 2)
             / (((wData es).meg_test.n * (wData es).meg_test.S *
                  (wData es).meg_test.T : ℕ) : ℚ)))) :=
  C2_evaluator_full_matrix gStore wData (fun _ => [wModel]) (fun _ _ => wPred)
    (fun _ _ => rfl) (fun _ _ _ _ => rfl) (fun _ _ _ _ => ⟨rfl, rfl, rfl⟩)
    (fun _ _ => Nat.one_pos)

/- ----------------------------------------------------------------
 C3 — distance aggregation.
---------------------------------------------------------------- -/

lemma distStep_hit (st : ℕ → Option (ℚ × ℕ)) (c : ℕ × ℕ × ℚ) (d : ℕ)
    (h : c.1 ≠ c.2.1 ∧ ((c.1 : ℤ) - (c.2.1 : ℤ)).natAbs = d) :
    distStep st c d =
      match st d with
      | none => some (c.2.2, 1)
      | some (l, k) => some (l + c.2.2, k + 1) := by
  unfold distStep
  rw [if_pos h.1, if_pos h.2.symm]
  rw [h.2]

lemma distStep_miss (st : ℕ → Option (ℚ × ℕ)) (c : ℕ × ℕ × ℚ) (d : ℕ)
    (h : ¬(c.1 ≠ c.2.1 ∧ ((c.1 : ℤ) - (c.2.1 : ℤ)).natAbs = d)) :
    distStep st c d = st d := by
  unfold distStep
  by_cases hne : c.1 ≠ c.2.1
  · rw [if_pos hne]
    have hd : ¬ d = ((c.1 : ℤ) - (c.2.1 : ℤ)).natAbs := by
      intro he
      exact h ⟨hne, he.symm⟩
    rw [if_neg hd]
  · rw [if_neg hne]

lemma foldl_distStep (d : ℕ) (L : List (ℕ × ℕ × ℚ)) :
    ∀ st : ℕ → Option (ℚ × ℕ),
      (L.foldl distStep st) d =
        addCells (st d)
          (L.filter fun c =>
            decide (c.1 ≠ c.2.1 ∧ ((c.1 : ℤ) - (c.2.1 : ℤ)).natAbs = d)) := by
  induction L with
  | nil => intro st; rfl
  | cons c cs ih =>
    intro st
    rw [List.foldl_cons, ih]
    by_cases hc : c.1 ≠ c.2.1 ∧ ((c.1 : ℤ) - (c.2.1 : ℤ)).natAbs = d
    · rw [List.filter_cons_of_pos (by simpa using hc), distStep_hit st c d hc]
      rfl
    · rw [List.filter_cons_of_neg (by simpa using hc), distStep_miss st c d hc]

lemma addCells_some (cs : List (ℕ × ℕ × ℚ)) :
    ∀ l0 k0, addCells (some (l0, k0)) cs =
      some (l0 + (cs.map fun c => c.2.2).sum, k0 + cs.length) := by
  induction cs with
  | nil => intro l0 k0; simp [addCells]
  | cons c cs ih =>
    intro l0 k0
    show addCells (some (l0 + c.2.2, k0 + 1)) cs = _
    rw [ih]
    refine congrArg some ?_
    refine Prod.ext ?_ ?_
    · show l0 + c.2.2 + (cs.map fun c => c.2.2).sum =
        l0 + ((c :: cs).map fun c => c.2.2).sum
      simp [add_assoc]
    · show k0 + 1 + cs.length = k0 + (c :: cs).length
      simp [List.length_cons]
      omega

lemma addCells_none (cs : List (ℕ × ℕ × ℚ)) (h : cs ≠ []) :
    addCells none cs = some ((cs.map fun c => c.2.2).sum, cs.length) := by
  cases cs with
  | nil => exact absurd rfl h
  | cons c cs =>
    show addCells (some (c.2.2, 1)) cs = _
    rw [addCells_some]
    refine congrArg some (Prod.ext ?_ ?_)
    · simp
    · simp [List.length_cons]
      omega

/-- The cells of the canonical matrix are the ordered session pairs tagged
with their error values, in row-major order. -/
lemma cellsOf_canon (E : ℕ → ℕ → ℚ) :
    cellsOf (canonMatrix E) =
      (session_ids_num.flatMap fun i => session_ids_num.map fun j => (i, j)).map
        fun p => (p.1, p.2, E p.1 p.2) := by
  unfold cellsOf canonMatrix
  rw [List.flatMap_map, List.map_flatMap]
  refine congrArg (List.flatMap session_ids_num) (funext fun i => ?_)
  simp [List.map_map, Function.comp]

lemma losses_canon_eq (E : ℕ → ℕ → ℚ) (d : ℕ) :
    losses_by_distances (canonMatrix E) d =
      addCells none ((pairsAtDist d).map fun p => (p.1, p.2, E p.1 p.2)) := by
  unfold losses_by_distances
  rw [foldl_distStep, cellsOf_canon, List.filter_map]
  rfl

/-- C3: for every error matrix over the ten-session set and every distance
`1 ≤ d ≤ 9`, the aggregation averages exactly the off-diagonal cells at index
distance `d` (`avg_error[d]` = their exact mean), tracks `count[d]` = the
number of contributing cells, every contributing pair is off-diagonal, and
distance 0 (the diagonal) never enters the dictionary at all. -/
theorem C3_distance_aggregation (E : ℕ → ℕ → ℚ) (d : ℕ)
    (h1 : 1 ≤ d) (h9 : d ≤ 9) :
    avg_losses (canonMatrix E) d
      = ((pairsAtDist d).map fun p => E p.1 p.2).sum / ((pairsAtDist d).length : ℚ)
    ∧ num_datapoints (canonMatrix E) d = (pairsAtDist d).length
    ∧ (∀ p ∈ pairsAtDist d, p.1 ≠ p.2)
    ∧ losses_by_distances (canonMatrix E) 0 = none := by
  have hne : pairsAtDist d ≠ [] := by
    interval_cases d <;> decide
  have hcells : (pairsAtDist d).map (fun p => (p.1, p.2, E p.1 p.2)) ≠ [] := by
    intro hx
    exact hne (List.map_eq_nil_iff.mp hx)
  have hmain := losses_canon_eq E d
  rw [addCells_none _ hcells] at hmain
  have hsum : (((pairsAtDist d).map fun p => (p.1, p.2, E p.1 p.2)).map
      fun c => c.2.2).sum = ((pairsAtDist d).map fun p => E p.1 p.2).sum := by
    rw [List.map_map]
    rfl
  have hlen : ((pairsAtDist d).map fun p => (p.1, p.2, E p.1 p.2)).length
      = (pairsAtDist d).length := List.length_map _ _
  refine ⟨?_, ?_, ?_, ?_⟩
  · unfold avg_losses
    rw [hmain, hsum, hlen]
  · unfold num_datapoints
    rw [hmain, hlen]
  · intro p hp
    have := List.of_mem_filter hp
    simp only [decide_eq_true_eq] at this
    exact this.1
  · rw [losses_canon_eq]
    have h0 : pairsAtDist 0 = [] := by decide
    rw [h0]
    rfl

/-- Witness for C3 at distance 1 on the zero matrix. -/
theorem C3_distance_aggregation_witness :
    avg_losses (canonMatrix fun _ _ => (0 : ℚ)) 1
      = ((pairsAtDist 1).map fun p => (fun _ _ => (0 : ℚ)) p.1 p.2).sum
          / ((pairsAtDist 1).length : ℚ)
    ∧ num_datapoints (canonMatrix fun _ _ => (0 : ℚ)) 1 = (pairsAtDist 1).length
    ∧ (∀ p ∈ pairsAtDist 1, p.1 ≠ p.2)
    ∧ losses_by_distances (canonMatrix fun _ _ => (0 : ℚ)) 0 = none :=
  C3_distance_aggregation (fun _ _ => 0) 1 (by decide) (by decide)

/- ----------------------------------------------------------------
 C1 — the closed form minimizes the ridge objective.
---------------------------------------------------------------- -/

namespace RidgeCore

variable {n F : ℕ}

/-- The centred design matrix has zero column sums. -/
lemma sum_Xc_eq_zero (X : Fin n → Fin F → ℚ) (f : Fin F) :
    ∑ i, Xc X i f = 0 := by
  rcases Nat.eq_zero_or_pos n with h | h
  · subst h; simp
  · have hn : (n : ℚ) ≠ 0 := Nat.cast_ne_zero.mpr (Nat.pos_iff_ne_zero.mp h)
    unfold Xc xbar
    rw [Finset.sum_sub_distrib, Finset.sum_const, Finset.card_univ,
      Fintype.card_fin, nsmul_eq_mul]
    field_simp

/-- The centred output has zero sum. -/
lemma sum_yc_eq_zero (y : Fin n → ℚ) : ∑ i, yc y i = 0 := by
  rcases Nat.eq_zero_or_pos n with h | h
  · subst h; simp
  · have hn : (n : ℚ) ≠ 0 := Nat.cast_ne_zero.mpr (Nat.pos_iff_ne_zero.mp h)
    unfold yc ybar
    rw [Finset.sum_sub_distrib, Finset.sum_const, Finset.card_univ,
      Fintype.card_fin, nsmul_eq_mul]
    field_simp

/-- Centred residuals sum to zero for every weight vector. -/
lemma sum_center_resid_zero (X : Fin n → Fin F → ℚ) (y : Fin n → ℚ)
    (w : Fin F → ℚ) :
    ∑ i, (yc y i - ∑ f, Xc X i f * w f) = 0 := by
  rw [Finset.sum_sub_distrib, sum_yc_eq_zero, Finset.sum_comm]
  have h : ∀ f ∈ Finset.univ, ∑ i, Xc X i f * w f = (0 : ℚ) := by
    intro f _
    rw [← Finset.sum_mul, sum_Xc_eq_zero, zero_mul]
  rw [Finset.sum_congr rfl h]
  simp

/-- The residual of the original problem splits into the centred residual and
a sample-independent offset. -/
lemma resid_decomp (X : Fin n → Fin F → ℚ) (y : Fin n → ℚ)
    (w : Fin F → ℚ) (b : ℚ) (i : Fin n) :
    y i - (∑ f, X i f * w f) - b
      = (yc y i - ∑ f, Xc X i f * w f)
        + (ybar y - (∑ f, xbar X f * w f) - b) := by
  have hs : (∑ f, Xc X i f * w f)
      = (∑ f, X i f * w f) - ∑ f, xbar X f * w f := by
    rw [← Finset.sum_sub_distrib]
    exact Finset.sum_congr rfl fun f _ => by unfold Xc; ring
  rw [hs]
  unfold yc
  ring

/-- Splitting the objective into a centred part and an intercept part. -/
lemma obj_split (X : Fin n → Fin F → ℚ) (y : Fin n → ℚ) (α : ℚ)
    (w : Fin F → ℚ) (b : ℚ) :
    obj X y α w b
      = ((∑ i, (yc y i - ∑ f, Xc X i f * w f) ^ 2) + α * ∑ f, (w f) ^ 2)
        + n * (ybar y - (∑ f, xbar X f * w f) - b) ^ 2 := by
  unfold obj
  have h1 : ∀ i ∈ Finset.univ, (y i - (∑ f, X i f * w f) - b) ^ 2
      = (yc y i - ∑ f, Xc X i f * w f) ^ 2
        + ((yc y i - ∑ f, Xc X i f * w f)
            * (2 * (ybar y - (∑ f, xbar X f * w f) - b))
          + (ybar y - (∑ f, xbar X f * w f) - b) ^ 2) := by
    intro i _
    rw [resid_decomp X y w b i]
    ring
  rw [Finset.sum_congr rfl h1, Finset.sum_add_distrib, Finset.sum_add_distrib,
    ← Finset.sum_mul, sum_center_resid_zero, zero_mul, zero_add,
    Finset.sum_const, Finset.card_univ, Fintype.card_fin, nsmul_eq_mul]
  ring

/-- The quadratic form of the regularized Gram matrix. -/
lemma dot_gram (X : Fin n → Fin F → ℚ) (α : ℚ) (v : Fin F → ℚ) :
    ∑ p, v p * (gram X α).mulVec v p
      = (∑ i, (∑ f, Xc X i f * v f) ^ 2) + α * ∑ f, (v f) ^ 2 := by
  have hstep : ∀ p ∈ Finset.univ, v p * (gram X α).mulVec v p
      = (∑ q, ∑ i, (Xc X i p * v p) * (Xc X i q * v q)) + α * (v p * v p) := by
    intro p _
    have hmv : (gram X α).mulVec v p
        = ∑ q, ((∑ i, Xc X i p * Xc X i q) + (if p = q then α else 0)) * v q := by
      simp [Matrix.mulVec, Matrix.dotProduct, gram]
    rw [hmv, Finset.mul_sum]
    have hq : ∀ q ∈ Finset.univ,
        v p * (((∑ i, Xc X i p * Xc X i q) + (if p = q then α else 0)) * v q)
          = (∑ i, (Xc X i p * v p) * (Xc X i q * v q))
            + (if p = q then α * (v p * v q) else 0) := by
      intro q _
      rw [add_mul, mul_add]
      congr 1
      · rw [Finset.sum_mul, Finset.mul_sum]
        exact Finset.sum_congr rfl fun i _ => by ring
      · split_ifs with h
        · ring
        · ring
    rw [Finset.sum_congr rfl hq, Finset.sum_add_distrib, Finset.sum_ite_eq]
    rw [if_pos (Finset.mem_univ p)]
  rw [Finset.sum_congr rfl hstep, Finset.sum_add_distrib]
  congr 1
  · have hswap : ∀ p ∈ Finset.univ,
        (∑ q, ∑ i, (Xc X i p * v p) * (Xc X i q * v q))
          = ∑ i, ∑ q, (Xc X i p * v p) * (Xc X i q * v q) := by
      intro p _
      exact Finset.sum_comm
    rw [Finset.sum_congr rfl hswap, Finset.sum_comm]
    refine Finset.sum_congr rfl fun i _ => ?_
    rw [sq, Finset.sum_mul_sum]
  · rw [← Finset.mul_sum]
    refine congrArg (α * ·) ?_
    exact Finset.sum_congr rfl fun f _ => (sq (v f)).symm ▸ rfl

/-- For `α > 0` the regularized Gram matrix is nonsingular. -/
lemma gram_det_ne_zero (X : Fin n → Fin F → ℚ) {α : ℚ} (hα : 0 < α) :
    (gram X α).det ≠ 0 := by
  intro hdet
  obtain ⟨v, hv0, hmv⟩ := Matrix.exists_mulVec_eq_zero_iff.mpr hdet
  have hq : ∑ p, v p * (gram X α).mulVec v p = 0 := by
    rw [hmv]
    simp
  rw [dot_gram] at hq
  have h1 : (0 : ℚ) ≤ ∑ i, (∑ f, Xc X i f * v f) ^ 2 :=
    Finset.sum_nonneg fun i _ => sq_nonneg _
  have h2 : (0 : ℚ) ≤ ∑ f, (v f) ^ 2 :=
    Finset.sum_nonneg fun f _ => sq_nonneg _
  have hvsum : ∑ f, (v f) ^ 2 = 0 := by nlinarith
  refine hv0 (funext fun f => ?_)
  have hf := (Finset.sum_eq_zero_iff_of_nonneg
    fun f _ => sq_nonneg (v f)).mp hvsum f (Finset.mem_univ f)
  exact pow_eq_zero_iff (two_ne_zero) |>.mp hf

/-- The explicit adjugate-based inverse is a genuine right inverse. -/
lemma gram_mul_gramInv (X : Fin n → Fin F → ℚ) {α : ℚ} (hα : 0 < α) :
    gram X α * gramInv X α = 1 := by
  unfold gramInv
  rw [Matrix.mul_smul, Matrix.mul_adjugate, smul_smul,
    inv_mul_cancel₀ (gram_det_ne_zero X hα), one_smul]

/-- The normal equations hold at the closed-form solution. -/
lemma gram_mulVec_wStar (X : Fin n → Fin F → ℚ) (y : Fin n → ℚ)
    {α : ℚ} (hα : 0 < α) :
    (gram X α).mulVec (wStar X y α) = nrhs X y := by
  unfold wStar
  rw [Matrix.mulVec_mulVec, gram_mul_gramInv X hα, Matrix.one_mulVec]

/-- Componentwise normal equations. -/
lemma normalEq_comp (X : Fin n → Fin F → ℚ) (y : Fin n → ℚ)
    {α : ℚ} (hα : 0 < α) (g : Fin F) :
    ∑ q, ((∑ i, Xc X i g * Xc X i q) + (if g = q then α else 0))
        * wStar X y α q
      = nrhs X y g := by
  have h := congrFun (gram_mulVec_wStar X y hα) g
  have hmv : (gram X α).mulVec (wStar X y α) g
      = ∑ q, ((∑ i, Xc X i g * Xc X i q) + (if g = q then α else 0))
          * wStar X y α q := by
    simp [Matrix.mulVec, Matrix.dotProduct, gram]
  rw [hmv] at h
  exact h

/-- The correlation of the centred residual at the closed-form solution with
each centred regressor equals the regularization force `α · w⋆`. -/
lemma sum_Xc_resid (X : Fin n → Fin F → ℚ) (y : Fin n → ℚ)
    {α : ℚ} (hα : 0 < α) (f : Fin F) :
    ∑ i, Xc X i f * (yc y i - ∑ g, Xc X i g * wStar X y α g)
      = α * wStar X y α f := by
  have hNE := normalEq_comp X y hα f
  have hsplit : ∑ q, ((∑ i, Xc X i f * Xc X i q) + (if f = q then α else 0))
        * wStar X y α q
      = (∑ q, (∑ i, Xc X i f * Xc X i q) * wStar X y α q)
        + α * wStar X y α f := by
    have hterm : ∀ q ∈ Finset.univ,
        ((∑ i, Xc X i f * Xc X i q) + (if f = q then α else 0)) * wStar X y α q
          = (∑ i, Xc X i f * Xc X i q) * wStar X y α q
            + (if f = q then α * wStar X y α q else 0) := by
      intro q _
      split_ifs with h
      · ring
      · ring
    rw [Finset.sum_congr rfl hterm, Finset.sum_add_distrib, Finset.sum_ite_eq,
      if_pos (Finset.mem_univ f)]
  rw [hsplit] at hNE
  have hgoal : ∑ i, Xc X i f * (yc y i - ∑ g, Xc X i g * wStar X y α g)
      = nrhs X y f - ∑ q, (∑ i, Xc X i f * Xc X i q) * wStar X y α q := by
    have hterm : ∀ i ∈ Finset.univ,
        Xc X i f * (yc y i - ∑ g, Xc X i g * wStar X y α g)
          = Xc X i f * yc y i
            - ∑ g, (Xc X i f * Xc X i g) * wStar X y α g := by
      intro i _
      rw [mul_sub, Finset.mul_sum]
      refine congrArg (Xc X i f * yc y i - ·) ?_
      exact Finset.sum_congr rfl fun g _ => by ring
    rw [Finset.sum_congr rfl hterm, Finset.sum_sub_distrib, Finset.sum_comm]
    unfold nrhs
    refine congrArg (_ - ·) ?_
    exact Finset.sum_congr rfl fun g _ => (Finset.sum_mul _ _ _).symm
  rw [hgoal]
  linarith

/-- The centred residual at the closed-form solution is `α`-orthogonal to
every direction `v`. -/
lemma cross_term (X : Fin n → Fin F → ℚ) (y : Fin n → ℚ)
    {α : ℚ} (hα : 0 < α) (v : Fin F → ℚ) :
    ∑ i, (yc y i - ∑ g, Xc X i g * wStar X y α g) * (∑ f, Xc X i f * v f)
      = α * ∑ f, wStar X y α f * v f := by
  have hterm : ∀ i ∈ Finset.univ,
      (yc y i - ∑ g, Xc X i g * wStar X y α g) * (∑ f, Xc X i f * v f)
        = ∑ f, (Xc X i f * (yc y i - ∑ g, Xc X i g * wStar X y α g)) * v f := by
    intro i _
    rw [Finset.mul_sum]
    exact Finset.sum_congr rfl fun f _ => by ring
  rw [Finset.sum_congr rfl hterm, Finset.sum_comm, Finset.mul_sum]
  refine Finset.sum_congr rfl fun f _ => ?_
  rw [← Finset.sum_mul, sum_Xc_resid X y hα f]
  ring

/-- The closed-form solution minimizes the centred penalized objective. -/
lemma objc_min (X : Fin n → Fin F → ℚ) (y : Fin n → ℚ)
    {α : ℚ} (hα : 0 < α) (w : Fin F → ℚ) :
    (∑ i, (yc y i - ∑ f, Xc X i f * wStar X y α f) ^ 2)
        + α * ∑ f, (wStar X y α f) ^ 2
      ≤ (∑ i, (yc y i - ∑ f, Xc X i f * w f) ^ 2) + α * ∑ f, (w f) ^ 2 := by
  have hdot : ∀ i ∈ Finset.univ,
      (∑ f, Xc X i f * w f)
        = (∑ f, Xc X i f * wStar X y α f)
          + ∑ f, Xc X i f * (w f - wStar X y α f) := by
    intro i _
    rw [← Finset.sum_add_distrib]
    exact Finset.sum_congr rfl fun f _ => by ring
  have hsq : ∀ i ∈ Finset.univ,
      (yc y i - ∑ f, Xc X i f * w f) ^ 2
        = (yc y i - ∑ f, Xc X i f * wStar X y α f) ^ 2
          - 2 * ((yc y i - ∑ g, Xc X i g * wStar X y α g)
              * (∑ f, Xc X i f * (w f - wStar X y α f)))
          + (∑ f, Xc X i f * (w f - wStar X y α f)) ^ 2 := by
    intro i hi
    rw [hdot i hi]
    ring
  have hsum1 : ∑ i, (yc y i - ∑ f, Xc X i f * w f) ^ 2
      = (∑ i, (yc y i - ∑ f, Xc X i f * wStar X y α f) ^ 2)
        - 2 * (α * ∑ f, wStar X y α f * (w f - wStar X y α f))
        + ∑ i, (∑ f, Xc X i f * (w f - wStar X y α f)) ^ 2 := by
    rw [Finset.sum_congr rfl hsq, Finset.sum_add_distrib, Finset.sum_sub_distrib]
    rw [← Finset.mul_sum, cross_term X y hα]
  have hsum2 : ∑ f, (w f) ^ 2
      = (∑ f, (wStar X y α f) ^ 2)
        + 2 * ∑ f, wStar X y α f * (w f - wStar X y α f)
        + ∑ f, (w f - wStar X y α f) ^ 2 := by
    rw [Finset.mul_sum, ← Finset.sum_add_distrib, ← Finset.sum_add_distrib]
    exact Finset.sum_congr rfl fun f _ => by ring
  have hpos1 : (0 : ℚ) ≤ ∑ i, (∑ f, Xc X i f * (w f - wStar X y α f)) ^ 2 :=
    Finset.sum_nonneg fun i _ => sq_nonneg _
  have hpos2 : (0 : ℚ) ≤ ∑ f, (w f - wStar X y α f) ^ 2 :=
    Finset.sum_nonneg fun f _ => sq_nonneg _
  nlinarith [hsum1, hsum2, hpos1, hpos2]

/-- The closed form `(w⋆, b⋆)` minimizes the full penalized least-squares
objective with unpenalized intercept. -/
lemma ridge_min (X : Fin n → Fin F → ℚ) (y : Fin n → ℚ)
    {α : ℚ} (hα : 0 < α) (w : Fin F → ℚ) (b : ℚ) :
    obj X y α (wStar X y α) (bStar X y α) ≤ obj X y α w b := by
  rw [obj_split, obj_split]
  have hd0 : ybar y - (∑ f, xbar X f * wStar X y α f) - bStar X y α = 0 := by
    unfold bStar
    ring
  rw [hd0]
  have h1 := objc_min X y hα w
  have h2 : (0 : ℚ) ≤ (n : ℚ) * (ybar y - (∑ f, xbar X f * w f) - b) ^ 2 :=
    mul_nonneg (Nat.cast_nonneg n) (sq_nonneg _)
  nlinarith [h1, h2]

end RidgeCore

/-- The per-sensor slice of the untyped multi-output objective in typed
form. -/
lemma obj_range_form (X Yt : Mat) (α : ℚ) (W : ℕ → ℕ → ℚ) (bfun : ℕ → ℚ)
    (s : ℕ) :
    RidgeCore.obj X.toFun (Yt.colFun X.rows s) α (fun f => W s f.val) (bfun s)
      = (∑ i ∈ Finset.range X.rows,
          (Yt.entry i s - (∑ f ∈ Finset.range X.cols, X.entry i f * W s f)
            - bfun s) ^ 2)
        + α * ∑ f ∈ Finset.range X.cols, (W s f) ^ 2 := by
  simp only [RidgeCore.obj, Mat.toFun, Mat.colFun]
  congr 1
  · have hinner : ∀ i : Fin X.rows,
        (∑ f : Fin X.cols, X.entry i.val f.val * W s f.val)
          = ∑ f ∈ Finset.range X.cols, X.entry i.val f * W s f :=
      fun i =>
        Fin.sum_univ_eq_sum_range (fun fv => X.entry i.val fv * W s fv) X.cols
    have h1 : ∀ i ∈ (Finset.univ : Finset (Fin X.rows)),
        (Yt.entry i.val s - (∑ f : Fin X.cols, X.entry i.val f.val * W s f.val)
          - bfun s) ^ 2
        = (Yt.entry i.val s
            - (∑ f ∈ Finset.range X.cols, X.entry i.val f * W s f)
            - bfun s) ^ 2 := by
      intro i _
      rw [hinner i]
    rw [Finset.sum_congr rfl h1]
    exact Fin.sum_univ_eq_sum_range
      (fun iv => (Yt.entry iv s
        - (∑ f ∈ Finset.range X.cols, X.entry iv f * W s f) - bfun s) ^ 2)
      X.rows
  · refine congrArg (α * ·) ?_
    exact Fin.sum_univ_eq_sum_range (fun fv => (W s fv) ^ 2) X.cols

/-- The untyped objective decomposes into independent per-sensor typed
objectives. -/
lemma ridgeObjectiveM_eq (X Yt : Mat) (α : ℚ) (W : ℕ → ℕ → ℚ)
    (bfun : ℕ → ℚ) :
    ridgeObjectiveM X Yt α W bfun
      = ∑ s ∈ Finset.range Yt.cols,
          RidgeCore.obj X.toFun (Yt.colFun X.rows s) α
            (fun f => W s f.val) (bfun s) := by
  unfold ridgeObjectiveM
  rw [Finset.mul_sum, ← Finset.sum_add_distrib]
  exact Finset.sum_congr rfl fun s _ => (obj_range_form X Yt α W bfun s).symm

/-- The model `Ridge(alpha).fit` returns minimizes the multi-output
penalized objective over all weight matrices and intercept vectors. -/
lemma fitted_objective_le (X Yt : Mat) {α : ℚ} (hα : 0 < α)
    (W : ℕ → ℕ → ℚ) (bfun : ℕ → ℚ) :
    ridgeObjectiveM X Yt α (sklearnRidgeFit α X Yt).coef
        (sklearnRidgeFit α X Yt).intercept
      ≤ ridgeObjectiveM X Yt α W bfun := by
  rw [ridgeObjectiveM_eq, ridgeObjectiveM_eq]
  refine Finset.sum_le_sum fun s hs => ?_
  have hs' : s < Yt.cols := Finset.mem_range.mp hs
  have hcoef : (fun f : Fin X.cols => (sklearnRidgeFit α X Yt).coef s f.val)
      = RidgeCore.wStar X.toFun (Yt.colFun X.rows s) α := by
    funext f
    show (if h : s < Yt.cols ∧ f.val < X.cols then
        RidgeCore.wStar X.toFun (Yt.colFun X.rows s) α ⟨f.val, h.2⟩ else 0) = _
    rw [dif_pos ⟨hs', f.isLt⟩]
  have hint : (sklearnRidgeFit α X Yt).intercept s
      = RidgeCore.bStar X.toFun (Yt.colFun X.rows s) α := by
    show (if s < Yt.cols then
        RidgeCore.bStar X.toFun (Yt.colFun X.rows s) α else 0) = _
    rw [if_pos hs']
  rw [hcoef, hint]
  exact RidgeCore.ridge_min X.toFun (Yt.colFun X.rows s) hα _ _

/-- C1: in non-random mode with `alpha > 0` (strict positivity is the spec's
own stability requirement), a successful `fit` stores, per timepoint `t`,
exactly the scikit-learn ridge solution for `(X, Y[:, :, t])` — one
independent model per timepoint, each depending only on its own slice — and
that solution minimizes the L2-regularized least-squares objective
`Σ‖Y_t - (X·Wᵀ + b)‖² + alpha·‖W‖²` over all weight matrices `W` and
intercepts `b`. -/
theorem C1_fit_solves_ridge (B : MultiDimensionalRidge) (X : Mat)
    (Y : Tensor3) (rng rng' : ℕ) (B' : MultiDimensionalRidge)
    (hrand : B.random_weights = false) (hα : 0 < B.alpha)
    (hfit : B.fit X Y rng = .ok (B', rng')) :
    B'.models
      = (List.ofFn fun t : Fin Y.T => sklearnRidgeFit B.alpha X (Y.slice t.val))
    ∧ ∀ t : Fin Y.T, ∀ W : ℕ → ℕ → ℚ, ∀ bfun : ℕ → ℚ,
        ridgeObjectiveM X (Y.slice t.val) B.alpha
            (sklearnRidgeFit B.alpha X (Y.slice t.val)).coef
            (sklearnRidgeFit B.alpha X (Y.slice t.val)).intercept
          ≤ ridgeObjectiveM X (Y.slice t.val) B.alpha W bfun := by
  constructor
  · unfold MultiDimensionalRidge.fit at hfit
    rw [hrand] at hfit
    simp only [Bool.false_eq_true, if_false] at hfit
    split at hfit
    · cases hfit
      rfl
    · cases hfit
  · intro t W bfun
    exact fitted_objective_le X (Y.slice t.val) hα W bfun

/-- Witness for C1 on 1×1×1 data with `alpha = 1`. -/
theorem C1_fit_solves_ridge_witness :
    (MultiDimensionalRidge.mk 1 false
        (List.ofFn fun t : Fin tY.T =>
          sklearnRidgeFit 1 tX (tY.slice t.val))).models
      = (List.ofFn fun t : Fin tY.T => sklearnRidgeFit 1 tX (tY.slice t.val))
    ∧ ∀ t : Fin tY.T, ∀ W : ℕ → ℕ → ℚ, ∀ bfun : ℕ → ℚ,
        ridgeObjectiveM tX (tY.slice t.val) 1
            (sklearnRidgeFit 1 tX (tY.slice t.val)).coef
            (sklearnRidgeFit 1 tX (tY.slice t.val)).intercept
          ≤ ridgeObjectiveM tX (tY.slice t.val) 1 W bfun :=
  C1_fit_solves_ridge (MultiDimensionalRidge.mk 1 false []) tX tY 0 0
    (MultiDimensionalRidge.mk 1 false
      (List.ofFn fun t : Fin tY.T => sklearnRidgeFit 1 tX (tY.slice t.val)))
    rfl (by norm_num) rfl
